import Mathlib

/-!
Verification of the symboleditor path-editing engine.

The repository ships the class declarations (`src/Editor.h`, `src/MainWindow.h`);
the member-function bodies (Editor.cpp) are not part of the source tree, so the
operational behaviour below is modelled from the specification, with the header
declarations (member lists, `const` qualifiers, signal signatures) as the code
authority where they speak.

Coordinates are modelled as exact rationals (ℚ): the spec's "equal within
floating tolerance" becomes exact equality in this model.
-/

/-- Point in symbol space: a 2D coordinate with rational components
(models `QPointF`). -/
structure Pt where
  x : ℚ
  y : ℚ
deriving DecidableEq, Repr

/-- Path element tag (models the `QPainterPath::ElementType` values the editor
uses: move, line and cubic curve), as in the spec's Element data model. -/
inductive Elem where
  | moveTo
  | lineTo
  | cubicTo
deriving DecidableEq, Repr

/-- Number of trailing points of the Point Sequence an element consumes:
1 for MoveTo and LineTo, 3 for CubicTo (control1, control2, endpoint). -/
def requiredPoints : Elem → Nat
  | .moveTo => 1
  | .lineTo => 1
  | .cubicTo => 3

/-- Total number of points the Element Sequence requires. -/
def sumRequired (es : List Elem) : Nat :=
  (es.map requiredPoints).sum

/-- Point-count invariant: the Point Sequence length equals the sum of
points-per-element over the Element Sequence. -/
def pcInv (es : List Elem) (ps : List Pt) : Prop :=
  ps.length = sumRequired es

instance (es : List Elem) (ps : List Pt) : Decidable (pcInv es ps) := by
  unfold pcInv; infer_instance

/-- One instruction of the renderable path (models one drawing instruction of
the `QPainterPath` the editor constructs). -/
inductive PathInstr where
  | move (p : Pt)
  | line (p : Pt)
  | cubic (c1 c2 p : Pt)
deriving DecidableEq, Repr

/-- Modelled from the spec: `Editor::constructPainterPath` (body absent from the
source tree). Builds the renderable path from Element Sequence + Point
Sequence by emitting, for each element in order, a move/line/cubic instruction
consuming the corresponding points; undefined (`none`) when the point-count
invariant is violated. -/
def constructPainterPath : List Elem → List Pt → Option (List PathInstr)
  | [], [] => some []
  | .moveTo :: es, p :: ps => (constructPainterPath es ps).map (PathInstr.move p :: ·)
  | .lineTo :: es, p :: ps => (constructPainterPath es ps).map (PathInstr.line p :: ·)
  | .cubicTo :: es, c1 :: c2 :: p :: ps =>
      (constructPainterPath es ps).map (PathInstr.cubic c1 c2 p :: ·)
  | _, _ => none

/-- Modelled from the spec: `Editor::deconstructPainterPath` (body absent from
the source tree). Walks a renderable path's instructions and repopulates the
Element Sequence and Point Sequence. -/
def deconstructPainterPath : List PathInstr → List Elem × List Pt
  | [] => ([], [])
  | .move p :: r =>
      let d := deconstructPainterPath r
      (.moveTo :: d.1, p :: d.2)
  | .line p :: r =>
      let d := deconstructPainterPath r
      (.lineTo :: d.1, p :: d.2)
  | .cubic c1 c2 p :: r =>
      let d := deconstructPainterPath r
      (.cubicTo :: d.1, c1 :: c2 :: p :: d.2)

/-- C1: For every Element Sequence and Point Sequence satisfying the
point-count invariant, constructing the renderable path succeeds and
deconstructing it yields back exactly the original element tags and point
coordinates: `deconstruct(construct(seq)) == seq`. -/
theorem construct_deconstruct_roundtrip (es : List Elem) (ps : List Pt)
    (h : pcInv es ps) :
    ∃ rp, constructPainterPath es ps = some rp ∧
      deconstructPainterPath rp = (es, ps) := by
  induction es generalizing ps with
  | nil =>
    have hps : ps = [] := by
      cases ps with
      | nil => rfl
      | cons a l => simp [pcInv, sumRequired] at h
    subst hps
    exact ⟨[], rfl, rfl⟩
  | cons e es ih =>
    cases e with
    | moveTo =>
      cases ps with
      | nil =>
        exfalso
        simp [pcInv, sumRequired, requiredPoints] at h
        omega
      | cons p ps' =>
        have h' : pcInv es ps' := by
          simp [pcInv, sumRequired, requiredPoints] at h ⊢
          omega
        obtain ⟨rp, hc, hd⟩ := ih ps' h'
        refine ⟨PathInstr.move p :: rp, ?_, ?_⟩
        · simp [constructPainterPath, hc]
        · simp [deconstructPainterPath, hd]
    | lineTo =>
      cases ps with
      | nil =>
        exfalso
        simp [pcInv, sumRequired, requiredPoints] at h
        omega
      | cons p ps' =>
        have h' : pcInv es ps' := by
          simp [pcInv, sumRequired, requiredPoints] at h ⊢
          omega
        obtain ⟨rp, hc, hd⟩ := ih ps' h'
        refine ⟨PathInstr.line p :: rp, ?_, ?_⟩
        · simp [constructPainterPath, hc]
        · simp [deconstructPainterPath, hd]
    | cubicTo =>
      match ps with
      | [] =>
        exfalso; simp [pcInv, sumRequired, requiredPoints] at h; omega
      | [c1] =>
        exfalso; simp [pcInv, sumRequired, requiredPoints] at h; omega
      | [c1, c2] =>
        exfalso; simp [pcInv, sumRequired, requiredPoints] at h; omega
      | c1 :: c2 :: p :: ps' =>
        have h' : pcInv es ps' := by
          simp [pcInv, sumRequired, requiredPoints] at h ⊢
          omega
        obtain ⟨rp, hc, hd⟩ := ih ps' h'
        refine ⟨PathInstr.cubic c1 c2 p :: rp, ?_, ?_⟩
        · simp [constructPainterPath, hc]
        · simp [deconstructPainterPath, hd]

/-- Round-trip witness at a concrete sequence: a move followed by a cubic,
with its four points. -/
theorem construct_deconstruct_roundtrip_witness :
    ∃ rp, constructPainterPath [Elem.moveTo, Elem.cubicTo]
        [⟨0, 0⟩, ⟨0, 0⟩, ⟨1, 1⟩, ⟨2, 0⟩] = some rp ∧
      deconstructPainterPath rp =
        ([Elem.moveTo, Elem.cubicTo], [⟨0, 0⟩, ⟨0, 0⟩, ⟨1, 1⟩, ⟨2, 0⟩]) :=
  construct_deconstruct_roundtrip _ _ (by decide)

/-- Fill rule attribute (models `Qt::FillRule`). -/
inductive FillRule where
  | oddEvenFill
  | windingFill
deriving DecidableEq, Repr

/-- Pen cap style attribute (models `Qt::PenCapStyle`). -/
inductive CapStyle where
  | flatCap
  | squareCap
  | roundCap
deriving DecidableEq, Repr

/-- Pen join style attribute (models `Qt::PenJoinStyle`). -/
inductive JoinStyle where
  | miterJoin
  | bevelJoin
  | roundJoin
deriving DecidableEq, Repr

/-- Tool selection (models `Editor::ToolMode`). -/
inductive ToolMode where
  | toolMoveTo
  | toolLineTo
  | toolCubicTo
  | toolRectangle
  | toolEllipse
deriving DecidableEq, Repr

/-- Number of points the currently selected tool accumulates before a commit:
1 for move-to and line-to, 3 for cubic-to, 2 (the two opposite corners) for the
rectangle and ellipse convenience tools. -/
def requiredCount : ToolMode → Nat
  | .toolMoveTo => 1
  | .toolLineTo => 1
  | .toolCubicTo => 3
  | .toolRectangle => 2
  | .toolEllipse => 2

/-- The symbol document: Element Sequence, Point Sequence and the rendering
attributes (models the editable content of `Symbol` plus `m_elements`,
`m_points`). -/
structure SymbolCore where
  elements : List Elem
  points : List Pt
  filled : Bool
  fillRule : FillRule
  capStyle : CapStyle
  joinStyle : JoinStyle
  lineWidth : ℚ
deriving DecidableEq, Repr

/-- Squared Euclidean distance between two points. -/
def distSq (a b : Pt) : ℚ :=
  (a.x - b.x) ^ 2 + (a.y - b.y) ^ 2

/-- Snap tolerance. Modelled from the spec: the exact tolerance is an
unspecified implementation parameter ("a few grid-pixels"); fixed here as
1/10 of a grid unit. -/
def snapTolerance : ℚ := 1 / 10

/-- Geometric center of the grid, the editor area being the unit square
(the header's edge members run from (0,0) to (1,1)). -/
def gridCenter : Pt := ⟨1 / 2, 1 / 2⟩

/-- Nearest grid intersection to a point, with grid spacing one unit:
round each coordinate. -/
def nearestGrid (p : Pt) : Pt :=
  ⟨(round p.x : ℤ), (round p.y : ℤ)⟩

/-- Modelled from the spec: `Editor::snapToGrid` (body absent from the source
tree; the header declares it `const`). Returns whether the nearest grid
intersection lies within the fixed tolerance, paired with that intersection. -/
def snapToGrid (p : Pt) : Bool × Pt :=
  let g := nearestGrid p
  (decide (distSq g p ≤ snapTolerance ^ 2), g)

/-- Guide line through a base point with a direction vector. -/
structure GuideLine where
  base : Pt
  dir : Pt
deriving DecidableEq, Repr

/-- Cross product of two plane vectors. -/
def cross (u v : Pt) : ℚ :=
  u.x * v.y - u.y * v.x

/-- Squared perpendicular distance from a point to a guide line. -/
def lineDistSq (l : GuideLine) (p : Pt) : ℚ :=
  cross l.dir ⟨p.x - l.base.x, p.y - l.base.y⟩ ^ 2 / (l.dir.x ^ 2 + l.dir.y ^ 2)

/-- Allowed guide-line directions. Modelled from the spec: the allowed-angle
set is an unspecified implementation parameter that must include 0° and 90°;
fixed here as 0°, 90°, 45° and 135° (the axis-aligned and diagonal
directions, which have rational direction vectors). -/
def guideAngleDirs : List Pt :=
  [⟨1, 0⟩, ⟨0, 1⟩, ⟨1, 1⟩, ⟨1, -1⟩]

/-- Candidate guide lines: through every existing point, at every allowed
angle, in insertion order of the point list. -/
def candidateLines (pts : List Pt) : List GuideLine :=
  pts.flatMap fun q => guideAngleDirs.map fun d => ⟨q, d⟩

/-- Guide lines whose perpendicular distance to the pointer is within
tolerance. -/
def keptLines (pts : List Pt) (p : Pt) : List GuideLine :=
  (candidateLines pts).filter fun l => lineDistSq l p ≤ snapTolerance ^ 2

/-- Intersection point of two guide lines, `none` when parallel. -/
def lineIntersect (l1 l2 : GuideLine) : Option Pt :=
  let d := cross l1.dir l2.dir
  if d = 0 then none
  else
    let t := cross ⟨l2.base.x - l1.base.x, l2.base.y - l1.base.y⟩ l2.dir / d
    some ⟨l1.base.x + t * l1.dir.x, l1.base.y + t * l1.dir.y⟩

/-- The four grid boundary edges as guide lines (the header's `m_topEdge`,
`m_bottomEdge`, `m_leftEdge`, `m_rightEdge` over the unit square). -/
def boundaryEdges : List GuideLine :=
  [⟨⟨0, 0⟩, ⟨1, 0⟩⟩, ⟨⟨0, 1⟩, ⟨1, 0⟩⟩, ⟨⟨0, 0⟩, ⟨0, 1⟩⟩, ⟨⟨1, 0⟩, ⟨0, 1⟩⟩]

/-- Is a point inside the visible (unit-square) area? -/
def inVisibleArea (p : Pt) : Bool :=
  decide (0 ≤ p.x) && decide (p.x ≤ 1) && decide (0 ≤ p.y) && decide (p.y ≤ 1)

/-- All intersections of the kept guides with each other and with the four
boundary edges that lie within the visible area. -/
def guideIntersections (ls : List GuideLine) : List Pt :=
  ((ls.flatMap fun l1 => (ls ++ boundaryEdges).filterMap fun l2 =>
      lineIntersect l1 l2)).filter inVisibleArea

/-- Nearest candidate to the pointer among a list, ties broken by list order
(first wins), `none` on an empty list. -/
def nearestCandidate (p : Pt) : List Pt → Option Pt
  | [] => none
  | c :: cs =>
    match nearestCandidate p cs with
    | none => some c
    | some b => if distSq b p < distSq c p then some b else some c

/-- Closest point on a guide line to the pointer (orthogonal projection). -/
def closestOnLine (l : GuideLine) (p : Pt) : Pt :=
  let t := ((p.x - l.base.x) * l.dir.x + (p.y - l.base.y) * l.dir.y) /
    (l.dir.x ^ 2 + l.dir.y ^ 2)
  ⟨l.base.x + t * l.dir.x, l.base.y + t * l.dir.y⟩

/-- Modelled from the spec: `Editor::snapToGuide` (body absent from the source
tree; the header declares it `const`). Guide State is derived purely from the
committed point list and the pointer position: guide lines through each
existing point at each allowed angle kept when within tolerance; snap to the
nearest qualifying intersection of kept guides with each other or the
boundary edges, else to the closest point on the nearest kept guide. Guide
circles are omitted from this rational model (their snap points are
irrational in general); no claim under verification depends on them. -/
def snapToGuide (pts : List Pt) (p : Pt) : Bool × Pt :=
  let ks := keptLines pts p
  let cands := (guideIntersections ks).filter fun c =>
    decide (distSq c p ≤ snapTolerance ^ 2)
  match nearestCandidate p cands with
  | some c => (true, c)
  | none =>
    match ks with
    | [] => (false, p)
    | l :: _ => (true, closestOnLine l p)

/-- Modelled from the spec: `Editor::snapPoint` (body absent from the source
tree; the header declares it `const`). If snap is enabled and the nearest
grid intersection is within tolerance, return it (grid-snap has priority);
otherwise try guide snap; otherwise return the position unchanged. -/
def snapPoint (snapEnabled : Bool) (pts : List Pt) (p : Pt) : Pt :=
  if snapEnabled then
    let g := snapToGrid p
    if g.1 then g.2
    else
      let gd := snapToGuide pts p
      if gd.1 then gd.2 else p
  else
    let gd := snapToGuide pts p
    if gd.1 then gd.2 else p

/-- Minimum line width. Modelled from the spec: the bound values are
unspecified implementation parameters; fixed here. -/
def lineWidthMin : ℚ := 1 / 100

/-- Maximum line width (configuration constant, as `lineWidthMin`). -/
def lineWidthMax : ℚ := 1

/-- Step used by the line-width increase/decrease slot commands
(configuration constant). -/
def lineWidthStep : ℚ := 1 / 100

/-- Saturating clamp of a requested line width to `[lineWidthMin,
lineWidthMax]`. -/
def clampWidth (w : ℚ) : ℚ :=
  max lineWidthMin (min lineWidthMax w)

/-- Modelled from the spec: the Edit History (`m_undoStack`, a `QUndoStack`;
bodies absent from the source tree). A single linear undo/redo stack: each
entry holds the old and new document state of one mutating operation. The
spec's cursor-into-a-list presentation is represented equivalently as the
zipper (entries before the cursor, most recent first; entries after the
cursor, next first); pushing while the cursor is not at the top discards all
entries after the cursor. -/
structure History where
  past : List (SymbolCore × SymbolCore)
  future : List (SymbolCore × SymbolCore)
deriving DecidableEq, Repr

/-- Push one mutating command: record (old, new), discard the redo tail. -/
def History.push (h : History) (old new : SymbolCore) : History :=
  ⟨(old, new) :: h.past, []⟩

/-- The editor state: document, transient Active Points, Edit History, snap
flag, selected tool and drag state (models the `Editor` members `m_points`,
`m_elements`, `m_activePoints`, `m_undoStack`, `m_snap`, `m_toolMode`,
`m_dragging`, `m_dragPointIndex`, `m_tracking`). -/
structure Editor where
  core : SymbolCore
  activePoints : List Pt
  history : History
  snap : Bool
  toolMode : ToolMode
  dragging : Bool
  dragPointIndex : Bool × Nat
  tracking : Pt
deriving DecidableEq, Repr

/-- Default document of a fresh (new) symbol. -/
def defaultCore : SymbolCore :=
  { elements := []
    points := []
    filled := false
    fillRule := .oddEvenFill
    capStyle := .squareCap
    joinStyle := .bevelJoin
    lineWidth := 1 / 10 }

/-- The initial empty editor state. -/
def initialEditor : Editor :=
  { core := defaultCore
    activePoints := []
    history := ⟨[], []⟩
    snap := false
    toolMode := .toolMoveTo
    dragging := false
    dragPointIndex := (true, 0)
    tracking := ⟨0, 0⟩ }

/-- Rotate one point 90° counter-clockwise about the grid center (pointwise
action of `Editor::rotatePointsLeft`). -/
def rotatePtLeft (p : Pt) : Pt :=
  ⟨gridCenter.x + (p.y - gridCenter.y), gridCenter.y - (p.x - gridCenter.x)⟩

/-- Rotate one point 90° clockwise about the grid center (pointwise action of
`Editor::rotatePointsRight`). -/
def rotatePtRight (p : Pt) : Pt :=
  ⟨gridCenter.x - (p.y - gridCenter.y), gridCenter.y + (p.x - gridCenter.x)⟩

/-- Mirror one point about the vertical axis through the grid center
(pointwise action of `Editor::flipPointsHorizontal`). -/
def flipPtHorizontal (p : Pt) : Pt :=
  ⟨2 * gridCenter.x - p.x, p.y⟩

/-- Mirror one point about the horizontal axis through the grid center
(pointwise action of `Editor::flipPointsVertical`). -/
def flipPtVertical (p : Pt) : Pt :=
  ⟨p.x, 2 * gridCenter.y - p.y⟩

/-- Bezier circle constant used by the ellipse decomposition
(rational approximation of 4(√2−1)/3). -/
def kappa : ℚ := 5523 / 10000

/-- Modelled from the spec: committing the Active Points of a tool onto the
document (the commit step of `Editor::addPoint` via `moveTo`, `lineTo`,
`cubicTo`, `addRectangle`, `addEllipse`; bodies absent from the source tree).
The engine inserts an implicit MoveTo as the first element of any new path
(for a cubic on an empty path the implicit move targets the first control
point); rectangle and ellipse decompose into a move plus four closing
line/curve segments. A call whose point list does not match the tool's arity
leaves the document unchanged (never reached by the editor). -/
def commitTool (t : ToolMode) (ap : List Pt) (c : SymbolCore) : SymbolCore :=
  match t, ap with
  | .toolMoveTo, [p] =>
      { c with elements := c.elements ++ [.moveTo], points := c.points ++ [p] }
  | .toolLineTo, [p] =>
      if c.elements.isEmpty then { c with elements := [.moveTo], points := [p] }
      else { c with elements := c.elements ++ [.lineTo], points := c.points ++ [p] }
  | .toolCubicTo, [c1, c2, p] =>
      if c.elements.isEmpty then
        { c with elements := [.moveTo, .cubicTo], points := [c1, c1, c2, p] }
      else
        { c with elements := c.elements ++ [.cubicTo], points := c.points ++ [c1, c2, p] }
  | .toolRectangle, [f, g] =>
      { c with
        elements := c.elements ++ [.moveTo, .lineTo, .lineTo, .lineTo, .lineTo]
        points := c.points ++ [f, ⟨g.x, f.y⟩, g, ⟨f.x, g.y⟩, f] }
  | .toolEllipse, [f, g] =>
      let m : Pt := ⟨(f.x + g.x) / 2, (f.y + g.y) / 2⟩
      let rx := (g.x - f.x) / 2
      let ry := (g.y - f.y) / 2
      { c with
        elements := c.elements ++ [.moveTo, .cubicTo, .cubicTo, .cubicTo, .cubicTo]
        points := c.points ++
          [⟨m.x + rx, m.y⟩,
           ⟨m.x + rx, m.y + ry * kappa⟩, ⟨m.x + rx * kappa, m.y + ry⟩, ⟨m.x, m.y + ry⟩,
           ⟨m.x - rx * kappa, m.y + ry⟩, ⟨m.x - rx, m.y + ry * kappa⟩, ⟨m.x - rx, m.y⟩,
           ⟨m.x - rx, m.y - ry * kappa⟩, ⟨m.x - rx * kappa, m.y - ry⟩, ⟨m.x, m.y - ry⟩,
           ⟨m.x + rx * kappa, m.y - ry⟩, ⟨m.x + rx, m.y - ry * kappa⟩, ⟨m.x + rx, m.y⟩] }
  | _, _ => c

/-- Modelled from the spec: `Editor::removeLast` document effect (body absent
from the source tree): drop the most recently committed element and its 1 or
3 points; the empty path is left unchanged. -/
def removeLastCore (c : SymbolCore) : SymbolCore :=
  match c.elements.getLast? with
  | none => c
  | some e =>
      { c with
        elements := c.elements.dropLast
        points := c.points.take (c.points.length - requiredPoints e) }

/-- One public mutating or history operation reachable from the editor's
public interface. -/
inductive Op where
  | addPoint (p : Pt)
  | removeLast
  | movePoint (i : Nat) (p : Pt)
  | rotateLeft
  | rotateRight
  | flipHorizontal
  | flipVertical
  | setFilled (b : Bool)
  | setFillRule (r : FillRule)
  | setCapStyle (cs : CapStyle)
  | setJoinStyle (js : JoinStyle)
  | setLineWidth (w : ℚ)
  | increaseLineWidth
  | decreaseLineWidth
  | selectTool (t : ToolMode)
  | enableSnap (b : Bool)
  | undoOp
  | redoOp
deriving DecidableEq, Repr

/-- Document-level effect of one operation (identity for the non-document
operations). -/
def opCore (op : Op) (s : Editor) : SymbolCore :=
  match op with
  | .addPoint p => commitTool s.toolMode (s.activePoints ++ [p]) s.core
  | .removeLast => removeLastCore s.core
  | .movePoint i p => { s.core with points := s.core.points.set i p }
  | .rotateLeft => { s.core with points := s.core.points.map rotatePtLeft }
  | .rotateRight => { s.core with points := s.core.points.map rotatePtRight }
  | .flipHorizontal => { s.core with points := s.core.points.map flipPtHorizontal }
  | .flipVertical => { s.core with points := s.core.points.map flipPtVertical }
  | .setFilled b => { s.core with filled := b }
  | .setFillRule r => { s.core with fillRule := r }
  | .setCapStyle cs => { s.core with capStyle := cs }
  | .setJoinStyle js => { s.core with joinStyle := js }
  | .setLineWidth w => { s.core with lineWidth := clampWidth w }
  | .increaseLineWidth => { s.core with lineWidth := clampWidth (s.core.lineWidth + lineWidthStep) }
  | .decreaseLineWidth => { s.core with lineWidth := clampWidth (s.core.lineWidth - lineWidthStep) }
  | .selectTool _ => s.core
  | .enableSnap _ => s.core
  | .undoOp => s.core
  | .redoOp => s.core

/-- Active Points after one operation: cleared by a commit and by tool
selection, transformed alongside the document by rotate/flip (the spec
includes in-progress points in the transforms), untouched otherwise. -/
def opActive (op : Op) (s : Editor) : List Pt :=
  match op with
  | .addPoint _ => []
  | .rotateLeft => s.activePoints.map rotatePtLeft
  | .rotateRight => s.activePoints.map rotatePtRight
  | .flipHorizontal => s.activePoints.map flipPtHorizontal
  | .flipVertical => s.activePoints.map flipPtVertical
  | .selectTool _ => []
  | _ => s.activePoints

/-- Record one mutating command: set the new document and push (old, new)
onto the Edit History. -/
def pushCore (s : Editor) (c : SymbolCore) : Editor :=
  { s with core := c, history := s.history.push s.core c }

/-- Modelled from the spec: undo (empty history is silently ignored). -/
def undoStep (s : Editor) : Editor :=
  match s.history.past with
  | [] => s
  | e :: rest => { s with core := e.1, history := ⟨rest, e :: s.history.future⟩ }

/-- Modelled from the spec: redo (nothing to redo is silently ignored). -/
def redoStep (s : Editor) : Editor :=
  match s.history.future with
  | [] => s
  | e :: rest => { s with core := e.2, history := ⟨e :: s.history.past, rest⟩ }

/-- Modelled from the spec: the editor's reaction to one public operation
(bodies absent from the source tree). A point is appended to the Active
Points and committed exactly when the tool's required count is reached; every
committed mutation is wrapped in an Edit History push; no-op conditions are
silently ignored. -/
def applyOp (op : Op) (s : Editor) : Editor :=
  match op with
  | .addPoint p =>
      let ap := s.activePoints ++ [p]
      if ap.length = requiredCount s.toolMode then
        { pushCore s (commitTool s.toolMode ap s.core) with activePoints := [] }
      else
        { s with activePoints := ap }
  | .removeLast =>
      if s.core.elements.isEmpty then s else pushCore s (removeLastCore s.core)
  | .movePoint i p =>
      if i < s.core.points.length then pushCore s (opCore (.movePoint i p) s) else s
  | .rotateLeft =>
      { pushCore s (opCore .rotateLeft s) with activePoints := s.activePoints.map rotatePtLeft }
  | .rotateRight =>
      { pushCore s (opCore .rotateRight s) with activePoints := s.activePoints.map rotatePtRight }
  | .flipHorizontal =>
      { pushCore s (opCore .flipHorizontal s) with
        activePoints := s.activePoints.map flipPtHorizontal }
  | .flipVertical =>
      { pushCore s (opCore .flipVertical s) with
        activePoints := s.activePoints.map flipPtVertical }
  | .setFilled b => pushCore s (opCore (.setFilled b) s)
  | .setFillRule r => pushCore s (opCore (.setFillRule r) s)
  | .setCapStyle cs => pushCore s (opCore (.setCapStyle cs) s)
  | .setJoinStyle js => pushCore s (opCore (.setJoinStyle js) s)
  | .setLineWidth w => pushCore s (opCore (.setLineWidth w) s)
  | .increaseLineWidth => pushCore s (opCore .increaseLineWidth s)
  | .decreaseLineWidth => pushCore s (opCore .decreaseLineWidth s)
  | .selectTool t => { s with toolMode := t, activePoints := [] }
  | .enableSnap b => { s with snap := b }
  | .undoOp => undoStep s
  | .redoOp => redoStep s

/-- Apply a sequence of operations in order. -/
def applyOps (ops : List Op) (s : Editor) : Editor :=
  ops.foldl (fun t op => applyOp op t) s

/-- Notification emitted to collaborators (the header's signals `message`,
`minLineWidth`, `maxLineWidth`; the message text is irrelevant here). -/
inductive Signal where
  | message
  | minLineWidth (reached : Bool)
  | maxLineWidth (reached : Bool)
deriving DecidableEq, Repr

/-- Boundary notifications fired after a line-width change: whether each bound
has been reached by the clamped value. -/
def widthSignals (w : ℚ) : List Signal :=
  [Signal.minLineWidth (decide (w = lineWidthMin)),
   Signal.maxLineWidth (decide (w = lineWidthMax))]

/-- Operation application together with the notifications it emits: the
line-width operations fire the boundary-reached notifications once per call;
the spec's no-op conditions emit nothing. -/
def applyOpSig (op : Op) (s : Editor) : Editor × List Signal :=
  match op with
  | .setLineWidth w => (applyOp op s, widthSignals (clampWidth w))
  | .increaseLineWidth =>
      (applyOp op s, widthSignals (clampWidth (s.core.lineWidth + lineWidthStep)))
  | .decreaseLineWidth =>
      (applyOp op s, widthSignals (clampWidth (s.core.lineWidth - lineWidthStep)))
  | _ => (applyOp op s, [])

/-- Modelled from the spec: `Editor::mouseReleaseEvent` (body absent from the
source tree). Releasing with an active drag commits the move of the dragged
point (committed list or Active Points, per `m_dragPointIndex`) and ends the
drag; releasing with no active drag is silently ignored, with no state change
and no notification. -/
def mouseReleaseEvent (s : Editor) : Editor × List Signal :=
  if s.dragging then
    let s' :=
      if s.dragPointIndex.1 then
        applyOp (.movePoint s.dragPointIndex.2 s.tracking) s
      else
        { s with activePoints := s.activePoints.set s.dragPointIndex.2 s.tracking }
    ({ s' with dragging := false }, [Signal.message])
  else (s, [])

/-- Snap as invoked on the editor state: reads only the snap flag and the
committed Point Sequence (Guide State is derived, recomputed per call). -/
def editorSnapPoint (s : Editor) (p : Pt) : Pt :=
  snapPoint s.snap s.core.points p

/-- Snap as a state-observing query: the header declares `snapPoint`,
`snapToGrid` and `snapToGuide` as `const` member functions and the class has
no `mutable` members, so the query cannot modify the editor state; its
embedding returns the state unchanged alongside the snapped position. -/
def snapQuery (s : Editor) (p : Pt) : Editor × Pt :=
  (s, editorSnapPoint s p)

/-- C4: For every pointer position, when grid-snap is enabled and the nearest
grid intersection lies within the fixed tolerance, `snapPoint` returns that
grid intersection — never a guide-based snap result; grid-snap has priority
over guide-snap. -/
theorem grid_snap_priority (pts : List Pt) (p : Pt)
    (h : (snapToGrid p).1 = true) :
    snapPoint true pts p = nearestGrid p := by
  have h' : distSq (nearestGrid p) p ≤ snapTolerance ^ 2 := by
    simpa [snapToGrid] using h
  simp [snapPoint, snapToGrid, h']

/-- Grid-snap priority witness: pointer (0.96, 2.03) with an existing point at
the origin snaps to the grid intersection (1, 2). -/
theorem grid_snap_priority_witness :
    snapPoint true [⟨0, 0⟩] ⟨96 / 100, 203 / 100⟩ = nearestGrid ⟨96 / 100, 203 / 100⟩ ∧
    nearestGrid ⟨96 / 100, 203 / 100⟩ = ⟨1, 2⟩ := by
  have hn : nearestGrid ⟨96 / 100, 203 / 100⟩ = (⟨1, 2⟩ : Pt) := by
    simp only [nearestGrid, Pt.mk.injEq]
    rw [round_eq, round_eq]
    norm_num
  refine ⟨grid_snap_priority [⟨0, 0⟩] ⟨96 / 100, 203 / 100⟩ ?_, hn⟩
  simp only [snapToGrid, hn, decide_eq_true_eq]
  simp only [distSq, snapTolerance]
  norm_num

/-- C9: Snap is deterministic: two editor states agreeing on the snap flag and
the committed Point Sequence produce the identical snap position for the same
raw pointer position, whatever their Active Points, history, attributes or
drag state — no hidden-state dependence. -/
theorem snap_deterministic (s1 s2 : Editor) (p : Pt)
    (hsnap : s1.snap = s2.snap) (hpts : s1.core.points = s2.core.points) :
    editorSnapPoint s1 p = editorSnapPoint s2 p := by
  unfold editorSnapPoint
  rw [hsnap, hpts]

/-- Snap determinism witness: two states differing in Active Points, tool and
line width but with the same point set and snap flag agree at a concrete
pointer position. -/
theorem snap_deterministic_witness :
    editorSnapPoint initialEditor ⟨1 / 3, 2 / 3⟩ =
      editorSnapPoint
        { initialEditor with
          activePoints := [⟨1, 1⟩]
          toolMode := .toolLineTo
          dragging := true
          core := { defaultCore with lineWidth := 1 } } ⟨1 / 3, 2 / 3⟩ :=
  snap_deterministic _ _ _ rfl rfl

/-- C10: Computing a snap position is a pure query: the header declares
`snapPoint`, `snapToGrid` and `snapToGuide` as `const` member functions of a
class with no `mutable` members, so the query leaves the committed Element
Sequence, Point Sequence, Active Points, attributes and undo history
unchanged for every input position. -/
theorem snapPoint_pure_query (s : Editor) (p : Pt) :
    (snapQuery s p).1.core.elements = s.core.elements ∧
    (snapQuery s p).1.core.points = s.core.points ∧
    (snapQuery s p).1.activePoints = s.activePoints ∧
    (snapQuery s p).1.core = s.core ∧
    (snapQuery s p).1.history = s.history ∧
    (snapQuery s p).1 = s :=
  ⟨rfl, rfl, rfl, rfl, rfl, rfl⟩

/-- Left rotation followed by right rotation is the identity on points. -/
theorem rotatePtRight_rotatePtLeft (p : Pt) : rotatePtRight (rotatePtLeft p) = p := by
  cases p with
  | mk x y =>
    simp only [rotatePtLeft, rotatePtRight, gridCenter, Pt.mk.injEq]
    constructor <;> ring

/-- Horizontal flip is an involution on points. -/
theorem flipPtHorizontal_flipPtHorizontal (p : Pt) :
    flipPtHorizontal (flipPtHorizontal p) = p := by
  cases p with
  | mk x y =>
    simp only [flipPtHorizontal, Pt.mk.injEq]
    constructor <;> ring_nf

/-- C5: For every point set, applying `rotateLeft` followed by `rotateRight`
restores the original coordinates of every point (committed and active), and
applying `flipHorizontal` twice likewise restores the original coordinates. -/
theorem transform_involution (s : Editor) :
    (applyOp .rotateRight (applyOp .rotateLeft s)).core.points = s.core.points ∧
    (applyOp .rotateRight (applyOp .rotateLeft s)).activePoints = s.activePoints ∧
    (applyOp .flipHorizontal (applyOp .flipHorizontal s)).core.points = s.core.points ∧
    (applyOp .flipHorizontal (applyOp .flipHorizontal s)).activePoints = s.activePoints := by
  refine ⟨?_, ?_, ?_, ?_⟩ <;>
    simp [applyOp, opCore, pushCore, List.map_map, Function.comp_def,
      rotatePtRight_rotatePtLeft, flipPtHorizontal_flipPtHorizontal]

/-- C7: `removeLast` on an empty path, undo with an empty history, and
drag-release with no active drag are each silently ignored: the state
(Element Sequence, Point Sequence, attributes, history) is unchanged and no
notification is emitted. -/
theorem noop_conditions (s : Editor) :
    (s.core.elements = [] → applyOpSig .removeLast s = (s, [])) ∧
    (s.history.past = [] → applyOpSig .undoOp s = (s, [])) ∧
    (s.dragging = false → mouseReleaseEvent s = (s, [])) := by
  refine ⟨?_, ?_, ?_⟩
  · intro h
    simp [applyOpSig, applyOp, h]
  · intro h
    simp [applyOpSig, applyOp, undoStep, h]
  · intro h
    simp [mouseReleaseEvent, h]

/-- No-op witness: the three no-op conditions at the initial empty editor. -/
theorem noop_conditions_witness :
    applyOpSig .removeLast initialEditor = (initialEditor, []) ∧
    applyOpSig .undoOp initialEditor = (initialEditor, []) ∧
    mouseReleaseEvent initialEditor = (initialEditor, []) :=
  ⟨(noop_conditions initialEditor).1 rfl,
   (noop_conditions initialEditor).2.1 rfl,
   (noop_conditions initialEditor).2.2 rfl⟩

/-- C8: When the first point of a new (empty) path is committed with the
LineTo tool, the engine inserts an implicit MoveTo as the first element:
committing p then q yields Element Sequence [MoveTo, LineTo] and Point
Sequence [p, q]. -/
theorem implicit_moveTo_first (s : Editor) (p q : Pt)
    (helems : s.core.elements = []) (hact : s.activePoints = [])
    (htool : s.toolMode = .toolLineTo) :
    (applyOp (.addPoint q) (applyOp (.addPoint p) s)).core.elements =
        [Elem.moveTo, Elem.lineTo] ∧
    (applyOp (.addPoint q) (applyOp (.addPoint p) s)).core.points = [p, q] := by
  rcases s with ⟨⟨es, ps, f, fr, cs, js, lw⟩, ap, hist, sn, tm, dr, dpi, tr⟩
  simp only at helems hact htool
  subst helems hact htool
  simp [applyOp, commitTool, pushCore, requiredCount]

/-- Implicit-MoveTo witness: committing (0,0) then (1,0) with the LineTo tool
on the fresh editor. -/
theorem implicit_moveTo_first_witness :
    (applyOp (.addPoint ⟨1, 0⟩)
        (applyOp (.addPoint ⟨0, 0⟩)
          { initialEditor with toolMode := .toolLineTo })).core.elements =
      [Elem.moveTo, Elem.lineTo] ∧
    (applyOp (.addPoint ⟨1, 0⟩)
        (applyOp (.addPoint ⟨0, 0⟩)
          { initialEditor with toolMode := .toolLineTo })).core.points =
      [⟨0, 0⟩, ⟨1, 0⟩] :=
  implicit_moveTo_first _ _ _ rfl rfl rfl

/-- C6: `setLineWidth` clamps the requested value to [lineWidthMin,
lineWidthMax] with saturating behavior and no failure; when the width is
already at the minimum, a decrease call leaves the value at the minimum and
fires the minimum-reached notification exactly once. -/
theorem setLineWidth_saturates (s : Editor) (w : ℚ)
    (hmin : s.core.lineWidth = lineWidthMin) :
    (applyOpSig (.setLineWidth w) s).1.core.lineWidth = clampWidth w ∧
    lineWidthMin ≤ clampWidth w ∧ clampWidth w ≤ lineWidthMax ∧
    (applyOpSig .decreaseLineWidth s).1.core.lineWidth = lineWidthMin ∧
    ((applyOpSig .decreaseLineWidth s).2.count (Signal.minLineWidth true)) = 1 := by
  have hdec : clampWidth (s.core.lineWidth - lineWidthStep) = lineWidthMin := by
    rw [hmin]
    simp only [clampWidth, lineWidthMin, lineWidthMax, lineWidthStep]
    norm_num
  refine ⟨rfl, le_max_left _ _, ?_, ?_, ?_⟩
  · apply max_le
    · simp only [lineWidthMin, lineWidthMax]; norm_num
    · exact min_le_left _ _
  · simp [applyOpSig, applyOp, opCore, pushCore, hdec]
  · have h2 : (applyOpSig .decreaseLineWidth s).2 =
        [Signal.minLineWidth true, Signal.maxLineWidth false] := by
      simp only [applyOpSig, hdec, widthSignals]
      norm_num [lineWidthMin, lineWidthMax]
    rw [h2]
    rfl

/-- Line-width saturation witness: a fresh editor whose width sits at the
minimum, with the request 5. -/
theorem setLineWidth_saturates_witness :
    (applyOpSig (.setLineWidth 5)
        { initialEditor with
          core := { defaultCore with lineWidth := lineWidthMin } }).1.core.lineWidth =
      clampWidth 5 ∧
    lineWidthMin ≤ clampWidth 5 ∧ clampWidth 5 ≤ lineWidthMax ∧
    (applyOpSig .decreaseLineWidth
        { initialEditor with
          core := { defaultCore with lineWidth := lineWidthMin } }).1.core.lineWidth =
      lineWidthMin ∧
    ((applyOpSig .decreaseLineWidth
        { initialEditor with
          core := { defaultCore with lineWidth := lineWidthMin } }).2.count
      (Signal.minLineWidth true)) = 1 :=
  setLineWidth_saturates _ 5 rfl

/-- The document satisfies the point-count invariant. -/
def coreOK (c : SymbolCore) : Prop :=
  pcInv c.elements c.points

/-- Every document snapshot recorded in the Edit History satisfies the
point-count invariant. -/
def histOK (h : History) : Prop :=
  (∀ e ∈ h.past, coreOK e.1 ∧ coreOK e.2) ∧ (∀ e ∈ h.future, coreOK e.1 ∧ coreOK e.2)

/-- Editor well-formedness: current document and all history snapshots
satisfy the point-count invariant. -/
def editorOK (s : Editor) : Prop :=
  coreOK s.core ∧ histOK s.history

/-- A tool commit preserves the point-count invariant. -/
theorem coreOK_commitTool (t : ToolMode) (ap : List Pt) (c : SymbolCore)
    (h : coreOK c) : coreOK (commitTool t ap c) := by
  rcases c with ⟨es, ps, f, fr, cs, js, lw⟩
  simp only [coreOK, pcInv, sumRequired] at h
  cases t <;>
    rcases ap with _ | ⟨a, _ | ⟨b, _ | ⟨d, _ | ⟨e, rest⟩⟩⟩⟩ <;>
    simp only [commitTool, coreOK, pcInv, sumRequired] <;>
    first
      | (exact h)
      | (split_ifs <;> simp_all [requiredPoints])
      | (simp_all [requiredPoints])

/-- Dropping the last element drops its required points from the sum. -/
theorem sumRequired_dropLast (es : List Elem) (e : Elem) (h : es.getLast? = some e) :
    sumRequired es = sumRequired es.dropLast + requiredPoints e := by
  induction es with
  | nil => simp at h
  | cons a rest ih =>
    cases rest with
    | nil =>
      simp only [List.getLast?_singleton, Option.some.injEq] at h
      subst h
      simp [sumRequired]
    | cons b t =>
      have h' : (b :: t).getLast? = some e := by
        rw [List.getLast?_cons_cons] at h
        exact h
      have := ih h'
      simp only [sumRequired, List.map_cons, List.sum_cons, List.dropLast_cons₂] at this ⊢
      omega

/-- Removing the last element preserves the point-count invariant. -/
theorem coreOK_removeLastCore (c : SymbolCore) (h : coreOK c) :
    coreOK (removeLastCore c) := by
  rcases c with ⟨es, ps, f, fr, cs, js, lw⟩
  simp only [coreOK, pcInv, sumRequired] at h
  unfold removeLastCore
  cases hlast : es.getLast? with
  | none => simpa [coreOK, pcInv, sumRequired] using h
  | some e =>
    have hsum := sumRequired_dropLast es e hlast
    simp only [coreOK, pcInv, List.length_take]
    simp only [sumRequired] at hsum ⊢
    omega

/-- Every public operation preserves editor well-formedness. -/
theorem editorOK_applyOp (op : Op) (s : Editor) (h : editorOK s) :
    editorOK (applyOp op s) := by
  obtain ⟨hc, hpast, hfut⟩ := h
  cases op with
  | addPoint p =>
    by_cases hfull : (s.activePoints ++ [p]).length = requiredCount s.toolMode
    · have hc' := coreOK_commitTool s.toolMode (s.activePoints ++ [p]) s.core hc
      simp only [applyOp, hfull, if_true, pushCore, History.push]
      refine ⟨hc', ?_, ?_⟩
      · intro e he
        rcases List.mem_cons.mp he with rfl | he'
        · exact ⟨hc, hc'⟩
        · exact hpast e he'
      · intro e he
        simp at he
    · simp only [applyOp, hfull, if_false]
      exact ⟨hc, hpast, hfut⟩
  | removeLast =>
    by_cases hemp : s.core.elements.isEmpty
    · simp only [applyOp, hemp, if_true]
      exact ⟨hc, hpast, hfut⟩
    · have hc' := coreOK_removeLastCore s.core hc
      simp only [applyOp, hemp, if_false, pushCore, History.push]
      refine ⟨hc', ?_, ?_⟩
      · intro e he
        rcases List.mem_cons.mp he with rfl | he'
        · exact ⟨hc, hc'⟩
        · exact hpast e he'
      · intro e he
        simp at he
  | movePoint i p =>
    by_cases hi : i < s.core.points.length
    · have hc' : coreOK (opCore (.movePoint i p) s) := by
        simp only [coreOK, pcInv, opCore, List.length_set]
        exact hc
      simp only [applyOp, hi, if_true, pushCore, History.push]
      refine ⟨hc', ?_, ?_⟩
      · intro e he
        rcases List.mem_cons.mp he with rfl | he'
        · exact ⟨hc, hc'⟩
        · exact hpast e he'
      · intro e he
        simp at he
    · simp only [applyOp, hi, if_false]
      exact ⟨hc, hpast, hfut⟩
  | undoOp =>
    simp only [applyOp, undoStep]
    cases hp : s.history.past with
    | nil => exact ⟨hc, hpast, hfut⟩
    | cons e rest =>
      have hmem := hpast e (by rw [hp]; exact List.mem_cons_self e rest)
      refine ⟨hmem.1, ?_, ?_⟩
      · intro x hx
        exact hpast x (by rw [hp]; exact List.mem_cons_of_mem e hx)
      · intro x hx
        rcases List.mem_cons.mp hx with rfl | hx'
        · exact hmem
        · exact hfut x hx'
  | redoOp =>
    simp only [applyOp, redoStep]
    cases hf : s.history.future with
    | nil => exact ⟨hc, hpast, hfut⟩
    | cons e rest =>
      have hmem := hfut e (by rw [hf]; exact List.mem_cons_self e rest)
      refine ⟨hmem.2, ?_, ?_⟩
      · intro x hx
        rcases List.mem_cons.mp hx with rfl | hx'
        · exact hmem
        · exact hpast x hx'
      · intro x hx
        exact hfut x (by rw [hf]; exact List.mem_cons_of_mem e hx)
  | selectTool t => exact ⟨hc, hpast, hfut⟩
  | enableSnap b => exact ⟨hc, hpast, hfut⟩
  | rotateLeft =>
    have hc' : coreOK (opCore .rotateLeft s) := by
      simp only [coreOK, pcInv, opCore, List.length_map]
      exact hc
    simp only [applyOp, pushCore, History.push]
    refine ⟨hc', ?_, ?_⟩
    · intro e he
      rcases List.mem_cons.mp he with rfl | he'
      · exact ⟨hc, hc'⟩
      · exact hpast e he'
    · intro e he
      simp at he
  | rotateRight =>
    have hc' : coreOK (opCore .rotateRight s) := by
      simp only [coreOK, pcInv, opCore, List.length_map]
      exact hc
    simp only [applyOp, pushCore, History.push]
    refine ⟨hc', ?_, ?_⟩
    · intro e he
      rcases List.mem_cons.mp he with rfl | he'
      · exact ⟨hc, hc'⟩
      · exact hpast e he'
    · intro e he
      simp at he
  | flipHorizontal =>
    have hc' : coreOK (opCore .flipHorizontal s) := by
      simp only [coreOK, pcInv, opCore, List.length_map]
      exact hc
    simp only [applyOp, pushCore, History.push]
    refine ⟨hc', ?_, ?_⟩
    · intro e he
      rcases List.mem_cons.mp he with rfl | he'
      · exact ⟨hc, hc'⟩
      · exact hpast e he'
    · intro e he
      simp at he
  | flipVertical =>
    have hc' : coreOK (opCore .flipVertical s) := by
      simp only [coreOK, pcInv, opCore, List.length_map]
      exact hc
    simp only [applyOp, pushCore, History.push]
    refine ⟨hc', ?_, ?_⟩
    · intro e he
      rcases List.mem_cons.mp he with rfl | he'
      · exact ⟨hc, hc'⟩
      · exact hpast e he'
    · intro e he
      simp at he
  | setFilled b =>
    simp only [applyOp, pushCore, History.push]
    refine ⟨hc, ?_, ?_⟩
    · intro e he
      rcases List.mem_cons.mp he with rfl | he'
      · exact ⟨hc, hc⟩
      · exact hpast e he'
    · intro e he
      simp at he
  | setFillRule r =>
    simp only [applyOp, pushCore, History.push]
    refine ⟨hc, ?_, ?_⟩
    · intro e he
      rcases List.mem_cons.mp he with rfl | he'
      · exact ⟨hc, hc⟩
      · exact hpast e he'
    · intro e he
      simp at he
  | setCapStyle cs =>
    simp only [applyOp, pushCore, History.push]
    refine ⟨hc, ?_, ?_⟩
    · intro e he
      rcases List.mem_cons.mp he with rfl | he'
      · exact ⟨hc, hc⟩
      · exact hpast e he'
    · intro e he
      simp at he
  | setJoinStyle js =>
    simp only [applyOp, pushCore, History.push]
    refine ⟨hc, ?_, ?_⟩
    · intro e he
      rcases List.mem_cons.mp he with rfl | he'
      · exact ⟨hc, hc⟩
      · exact hpast e he'
    · intro e he
      simp at he
  | setLineWidth w =>
    simp only [applyOp, pushCore, History.push]
    refine ⟨hc, ?_, ?_⟩
    · intro e he
      rcases List.mem_cons.mp he with rfl | he'
      · exact ⟨hc, hc⟩
      · exact hpast e he'
    · intro e he
      simp at he
  | increaseLineWidth =>
    simp only [applyOp, pushCore, History.push]
    refine ⟨hc, ?_, ?_⟩
    · intro e he
      rcases List.mem_cons.mp he with rfl | he'
      · exact ⟨hc, hc⟩
      · exact hpast e he'
    · intro e he
      simp at he
  | decreaseLineWidth =>
    simp only [applyOp, pushCore, History.push]
    refine ⟨hc, ?_, ?_⟩
    · intro e he
      rcases List.mem_cons.mp he with rfl | he'
      · exact ⟨hc, hc⟩
      · exact hpast e he'
    · intro e he
      simp at he

/-- Well-formedness is preserved along any operation sequence. -/
theorem editorOK_applyOps (ops : List Op) (s : Editor) (h : editorOK s) :
    editorOK (applyOps ops s) := by
  induction ops generalizing s with
  | nil => exact h
  | cons op rest ih =>
    have : applyOps (op :: rest) s = applyOps rest (applyOp op s) := rfl
    rw [this]
    exact ih _ (editorOK_applyOp op s h)

/-- C2: After every sequence of public operations applied from the initial
empty state, the length of the Point Sequence equals the sum over the
Element Sequence of points-per-element (1 for MoveTo and LineTo, 3 for
CubicTo): the count invariant is preserved by every reachable operation. -/
theorem point_count_invariant (ops : List Op) :
    pcInv (applyOps ops initialEditor).core.elements
      (applyOps ops initialEditor).core.points := by
  have h0 : editorOK initialEditor := by
    refine ⟨rfl, ?_, ?_⟩ <;> intro e he <;> simp [initialEditor] at he
  exact (editorOK_applyOps ops initialEditor h0).1

/-- Does this operation, in this state, actually mutate the document and push
one Edit History command? Commits push exactly when the tool's required count
is reached; the spec's no-op conditions push nothing; tool/snap selection and
undo/redo are not mutating operations. -/
def effective (op : Op) (s : Editor) : Bool :=
  match op with
  | .addPoint _ => s.activePoints.length + 1 == requiredCount s.toolMode
  | .removeLast => !s.core.elements.isEmpty
  | .movePoint i _ => decide (i < s.core.points.length)
  | .selectTool _ => false
  | .enableSnap _ => false
  | .undoOp => false
  | .redoOp => false
  | _ => true

/-- Every operation of the sequence, applied in order, is a mutating
operation in the state it meets. -/
def effChain : List Op → Editor → Bool
  | [], _ => true
  | op :: rest, s => effective op s && effChain rest (applyOp op s)

/-- A mutating operation replaces the document by its document-level effect,
updates the Active Points and pushes exactly one history entry recording
(old document, new document). -/
theorem applyOp_effective (op : Op) (s : Editor) (h : effective op s = true) :
    applyOp op s =
      { s with
        core := opCore op s
        activePoints := opActive op s
        history := ⟨(s.core, opCore op s) :: s.history.past, []⟩ } := by
  cases op with
  | addPoint p =>
    have h' : (s.activePoints ++ [p]).length = requiredCount s.toolMode := by
      simp only [effective, beq_iff_eq] at h
      simpa using h
    simp [applyOp, h', pushCore, History.push, opCore, opActive]
  | removeLast =>
    have h' : ¬ s.core.elements.isEmpty = true := by
      simpa [effective] using h
    simp [applyOp, h', pushCore, History.push, opCore, opActive]
  | movePoint i p =>
    have h' : i < s.core.points.length := by
      simpa [effective] using h
    simp [applyOp, h', pushCore, History.push, opCore, opActive]
  | rotateLeft => simp [applyOp, pushCore, History.push, opCore, opActive]
  | rotateRight => simp [applyOp, pushCore, History.push, opCore, opActive]
  | flipHorizontal => simp [applyOp, pushCore, History.push, opCore, opActive]
  | flipVertical => simp [applyOp, pushCore, History.push, opCore, opActive]
  | setFilled b => simp [applyOp, pushCore, History.push, opCore, opActive]
  | setFillRule r => simp [applyOp, pushCore, History.push, opCore, opActive]
  | setCapStyle cs => simp [applyOp, pushCore, History.push, opCore, opActive]
  | setJoinStyle js => simp [applyOp, pushCore, History.push, opCore, opActive]
  | setLineWidth w => simp [applyOp, pushCore, History.push, opCore, opActive]
  | increaseLineWidth => simp [applyOp, pushCore, History.push, opCore, opActive]
  | decreaseLineWidth => simp [applyOp, pushCore, History.push, opCore, opActive]
  | selectTool t => simp [effective] at h
  | enableSnap b => simp [effective] at h
  | undoOp => simp [effective] at h
  | redoOp => simp [effective] at h

/-- The (old document, new document) pairs recorded along an operation
sequence, oldest first. -/
def opsTrace : List Op → Editor → List (SymbolCore × SymbolCore)
  | [], _ => []
  | op :: rest, s => (s.core, (applyOp op s).core) :: opsTrace rest (applyOp op s)

/-- The state reached after fully undoing an operation sequence: the original
document is restored, the history cursor sits below the recorded trace. -/
def mkUndone (ops : List Op) (s : Editor) : Editor :=
  { applyOps ops s with
    core := s.core
    history := ⟨s.history.past, opsTrace ops s ++ (applyOps ops s).history.future⟩ }

/-- Undo pops the top history entry and restores its old document. -/
theorem undoStep_cons (s : Editor) (e : SymbolCore × SymbolCore)
    (l : List (SymbolCore × SymbolCore)) (h : s.history.past = e :: l) :
    undoStep s = { s with core := e.1, history := ⟨l, e :: s.history.future⟩ } := by
  unfold undoStep
  split
  · rename_i heq
    rw [heq] at h
    simp at h
  · rename_i e' l' heq
    rw [heq] at h
    injection h with h1 h2
    subst h1
    subst h2
    rfl

/-- Redo re-applies the next history entry and restores its new document. -/
theorem redoStep_cons (s : Editor) (e : SymbolCore × SymbolCore)
    (l : List (SymbolCore × SymbolCore)) (h : s.history.future = e :: l) :
    redoStep s = { s with core := e.2, history := ⟨e :: s.history.past, l⟩ } := by
  unfold redoStep
  split
  · rename_i heq
    rw [heq] at h
    simp at h
  · rename_i e' l' heq
    rw [heq] at h
    injection h with h1 h2
    subst h1
    subst h2
    rfl

/-- Undoing a fully-applied mutating sequence reaches `mkUndone`, and redoing
from there restores the final state exactly. -/
theorem undo_redo_aux (ops : List Op) (s : Editor) (h : effChain ops s = true) :
    undoStep^[ops.length] (applyOps ops s) = mkUndone ops s ∧
    redoStep^[ops.length] (mkUndone ops s) = applyOps ops s := by
  induction ops generalizing s with
  | nil => exact ⟨rfl, rfl⟩
  | cons op rest ih =>
    rw [effChain, Bool.and_eq_true] at h
    obtain ⟨h1, h2⟩ := h
    obtain ⟨ihu, ihr⟩ := ih (applyOp op s) h2
    have happly : applyOps (op :: rest) s = applyOps rest (applyOp op s) := rfl
    have hs1 := applyOp_effective op s h1
    have hs1core : (applyOp op s).core = opCore op s := by rw [hs1]
    have hs1past :
        (applyOp op s).history.past = (s.core, opCore op s) :: s.history.past := by
      rw [hs1]
    have htrace :
        opsTrace (op :: rest) s =
          (s.core, opCore op s) :: opsTrace rest (applyOp op s) := by
      simp [opsTrace, hs1core]
    have hmkpast :
        (mkUndone rest (applyOp op s)).history.past =
          (s.core, opCore op s) :: s.history.past := by
      simp [mkUndone, hs1past]
    -- the undone state of the tail sequence, seen from s
    have hmid :
        mkUndone rest (applyOp op s) =
          { applyOps rest (applyOp op s) with
            core := (applyOp op s).core
            history := ⟨(s.core, opCore op s) :: s.history.past,
              opsTrace rest (applyOp op s) ++
                (applyOps rest (applyOp op s)).history.future⟩ } := by
      simp [mkUndone, hs1past]
    constructor
    · rw [List.length_cons, Function.iterate_succ_apply', happly, ihu,
        undoStep_cons _ _ _ hmkpast]
      rw [hmid]
      simp [mkUndone, happly, htrace, hs1core]
    · rw [List.length_cons, Function.iterate_succ_apply]
      have hfut :
          (mkUndone (op :: rest) s).history.future =
            (s.core, opCore op s) ::
              (opsTrace rest (applyOp op s) ++
                (applyOps rest (applyOp op s)).history.future) := by
        simp [mkUndone, htrace, happly]
      rw [redoStep_cons _ _ _ hfut]
      have hstep :
          ({ mkUndone (op :: rest) s with
              core := (s.core, opCore op s).2
              history := ⟨(s.core, opCore op s) :: (mkUndone (op :: rest) s).history.past,
                opsTrace rest (applyOp op s) ++
                  (applyOps rest (applyOp op s)).history.future⟩ } : Editor) =
            mkUndone rest (applyOp op s) := by
        rw [hmid]
        simp [mkUndone, happly, hs1core]
      rw [hstep, ihr, happly]

/-- C3: For any sequence of n mutating operations applied to a state,
invoking undo n times restores exactly the prior Element Sequence, Point
Sequence and attributes; subsequently invoking redo n times restores the
post-mutation state exactly. -/
theorem undo_redo_inverse (ops : List Op) (s : Editor) (h : effChain ops s = true) :
    (undoStep^[ops.length] (applyOps ops s)).core = s.core ∧
    redoStep^[ops.length] (undoStep^[ops.length] (applyOps ops s)) =
      applyOps ops s := by
  obtain ⟨h1, h2⟩ := undo_redo_aux ops s h
  refine ⟨?_, ?_⟩
  · rw [h1]
    rfl
  · rw [h1]
    exact h2

/-- Undo/redo witness: setting the filled flag then rotating left, from the
fresh editor; two undos restore the document, two redos restore the result. -/
theorem undo_redo_inverse_witness :
    (undoStep^[2] (applyOps [Op.setFilled true, Op.rotateLeft] initialEditor)).core =
      initialEditor.core ∧
    redoStep^[2]
        (undoStep^[2] (applyOps [Op.setFilled true, Op.rotateLeft] initialEditor)) =
      applyOps [Op.setFilled true, Op.rotateLeft] initialEditor :=
  undo_redo_inverse [Op.setFilled true, Op.rotateLeft] initialEditor (by decide)
